import Mathlib

/-!
Verification of the Edelbaum/Kéchichian low-thrust guidance law implemented in
`src/poliastro/twobody/thrust.py`.

The single source function `edelbaum_ai(k, a_0, a_f, inc_0, inc_f, f)` and its
inner helpers (`_beta_0`, `_compute_parameters`, `_beta`, `_delta_V`,
`_extra_quantities`, `a_d`) are embedded below as functions over the exact real
numbers.  Machine floats are modelled by reals; the numpy primitives `sin`,
`cos`, `tan`, `sqrt`, `arctan2`, `sign` and `cross` are modelled by their exact
mathematical counterparts, and Lean's total division (`x / 0 = 0`) stands in
for IEEE division, so places where the source would produce NaN through `0/0`
become junk-value computations here (they are called out where they matter).
-/

namespace Edelbaum

/-- Three-component real vector, modelling the numpy length-3 arrays of the
source (`ss.r.value`, `ss.v.value` and the returned acceleration). -/
@[ext]
structure Vec3 where
  x : ℝ
  y : ℝ
  z : ℝ

/-- Dot product of 3-vectors, used to state magnitude and orthogonality facts
about the source's vectors. -/
noncomputable def dot (a b : Vec3) : ℝ := a.x * b.x + a.y * b.y + a.z * b.z

/-- Cross product of 3-vectors, modelling `np.cross(r, v)` in the source. -/
noncomputable def cross (a b : Vec3) : Vec3 :=
  ⟨a.y * b.z - a.z * b.y, a.z * b.x - a.x * b.z, a.x * b.y - a.y * b.x⟩

/-- Elementwise multiplication of a 3-vector by a scalar (numpy `c * a`). -/
noncomputable def smul (c : ℝ) (a : Vec3) : Vec3 := ⟨c * a.x, c * a.y, c * a.z⟩

/-- Elementwise addition of 3-vectors (numpy `a + b`). -/
noncomputable def vadd (a b : Vec3) : Vec3 := ⟨a.x + b.x, a.y + b.y, a.z + b.z⟩

/-- Elementwise division of a 3-vector by a scalar (numpy `a / c`). -/
noncomputable def vdiv (a : Vec3) (c : ℝ) : Vec3 := ⟨a.x / c, a.y / c, a.z / c⟩

/-- Modelled from the spec: the collaborator `poliastro.util.norm` (its code is
not under `src/`); per the spec's external-interface contract it is the
Euclidean norm of a 3-vector. -/
noncomputable def norm (a : Vec3) : ℝ := Real.sqrt (dot a a)

/-- Modelled from the spec: the collaborator `poliastro.util.circular_velocity`
(its code is not under `src/`); per the spec's external-interface contract it
is `V = sqrt(k / a)`. -/
noncomputable def circular_velocity (k a : ℝ) : ℝ := Real.sqrt (k / a)

/-- The numpy primitive `np.sign` on reals: `-1`, `0` or `1` according to the
sign of the argument. -/
noncomputable def np_sign (x : ℝ) : ℝ := if x < 0 then -1 else if 0 < x then 1 else 0

/-- The numpy primitive `np.arctan2 y x`: the angle in `(-π, π]` of the point
`(x, y)` (quadrant-correct two-argument arctangent; IEEE signed zeros are not
modelled, the `y = 0` rows follow `+0`). -/
noncomputable def arctan2 (y x : ℝ) : ℝ :=
  if 0 < x then Real.arctan (y / x)
  else if x = 0 then (if 0 < y then Real.pi / 2 else if y < 0 then -(Real.pi / 2) else 0)
  else if 0 ≤ y then Real.arctan (y / x) + Real.pi
  else Real.arctan (y / x) - Real.pi

/-- Inner `_beta_0` of `edelbaum_ai`: the initial yaw angle
`arctan2(sin(π/2·Δi), V_0/V_f - cos(π/2·Δi))` with `Δi = |inc_f - inc_0|`. -/
noncomputable def beta_0 (V_0 V_f inc_0 inc_f : ℝ) : ℝ :=
  arctan2 (Real.sin (Real.pi / 2 * |inc_f - inc_0|))
    (V_0 / V_f - Real.cos (Real.pi / 2 * |inc_f - inc_0|))

/-- Inner `_compute_parameters` of `edelbaum_ai`: returns
`(V_0, beta_0_, delta_inc)`. -/
noncomputable def compute_parameters (k a_0 a_f inc_0 inc_f : ℝ) : ℝ × ℝ × ℝ :=
  (circular_velocity k a_0,
   beta_0 (circular_velocity k a_0) (circular_velocity k a_f) inc_0 inc_f,
   |inc_f - inc_0|)

/-- Inner `_beta` of `edelbaum_ai`: the yaw angle as a function of time,
`arctan2(V_0·sin β_0, V_0·cos β_0 - f·t)`. -/
noncomputable def beta (t V_0 f beta_0_ : ℝ) : ℝ :=
  arctan2 (V_0 * Real.sin beta_0_) (V_0 * Real.cos beta_0_ - f * t)

/-- Inner `_delta_V` of `edelbaum_ai`: the required velocity increment
`V_0·cos β_0 - V_0·sin β_0 / tan(π/2·Δi + β_0)`. -/
noncomputable def delta_V (V_0 beta_0_ inc_0 inc_f : ℝ) : ℝ :=
  V_0 * Real.cos beta_0_ -
    V_0 * Real.sin beta_0_ / Real.tan (Real.pi / 2 * |inc_f - inc_0| + beta_0_)

/-- Inner `_extra_quantities` of `edelbaum_ai`: returns `(delta_V_, t_f_)` with
`t_f_ = delta_V_ / f`. -/
noncomputable def extra_quantities (k a_0 a_f inc_0 inc_f f : ℝ) : ℝ × ℝ :=
  let p := compute_parameters k a_0 a_f inc_0 inc_f
  let delta_V_ := delta_V p.1 p.2.1 inc_0 inc_f
  (delta_V_, delta_V_ / f)

/-- Inner `a_d` of `edelbaum_ai`: the guidance acceleration as a pure function
of the elapsed time and the state vectors `r`, `v`.  (The `state_from_vector`
decorator is the out-of-scope state adapter that supplies `r` and `v`.) -/
noncomputable def a_d (V_0 beta_0_ inc_0 inc_f f t0 : ℝ) (r v : Vec3) : Vec3 :=
  let beta_ := beta t0 V_0 f beta_0_ * np_sign (r.x * (inc_f - inc_0))
  let t_ := vdiv v (norm v)
  let w_ := vdiv (cross r v) (norm (cross r v))
  smul f (vadd (smul (Real.cos beta_) t_) (smul (Real.sin beta_) w_))

/-- Entry point `edelbaum_ai`: derives the parameters once and returns the
triple (acceleration function, `delta_V`, `t_f`). -/
noncomputable def edelbaum_ai (k a_0 a_f inc_0 inc_f f : ℝ) :
    (ℝ → Vec3 → Vec3 → Vec3) × ℝ × ℝ :=
  let p := compute_parameters k a_0 a_f inc_0 inc_f
  (fun t0 r v => a_d p.1 p.2.1 inc_0 inc_f f t0 r v,
   (extra_quantities k a_0 a_f inc_0 inc_f f).1,
   (extra_quantities k a_0 a_f inc_0 inc_f f).2)

lemma dot_self_nonneg (a : Vec3) : 0 ≤ dot a a := by
  unfold dot
  nlinarith [mul_self_nonneg a.x, mul_self_nonneg a.y, mul_self_nonneg a.z]

lemma mul_self_norm (a : Vec3) : norm a * norm a = dot a a :=
  Real.mul_self_sqrt (dot_self_nonneg a)

lemma dot_comm (a b : Vec3) : dot a b = dot b a := by unfold dot; ring

lemma dot_vadd_left (a b w : Vec3) : dot (vadd a b) w = dot a w + dot b w := by
  unfold dot vadd; simp; ring

lemma dot_smul_left (c : ℝ) (a w : Vec3) : dot (smul c a) w = c * dot a w := by
  unfold dot smul; simp; ring

lemma dot_vdiv_vdiv (a b : Vec3) (c d : ℝ) :
    dot (vdiv a c) (vdiv b d) = dot a b / (c * d) := by
  unfold dot vdiv
  simp only [div_mul_div_comm, div_add_div_same]

lemma dot_self_cross (r v : Vec3) : dot v (cross r v) = 0 := by
  unfold dot cross; simp; ring

lemma dot_vadd_right (a b w : Vec3) : dot w (vadd a b) = dot w a + dot w b := by
  unfold dot vadd; simp; ring

lemma dot_smul_right (c : ℝ) (a w : Vec3) : dot w (smul c a) = c * dot w a := by
  unfold dot smul; simp; ring

lemma unit_tangent_self (v : Vec3) (hv : norm v ≠ 0) :
    dot (vdiv v (norm v)) (vdiv v (norm v)) = 1 := by
  rw [dot_vdiv_vdiv, ← mul_self_norm v]
  exact div_self (mul_ne_zero hv hv)

lemma unit_tangent_normal (r v : Vec3) :
    dot (vdiv v (norm v)) (vdiv (cross r v) (norm (cross r v))) = 0 := by
  rw [dot_vdiv_vdiv, dot_self_cross, zero_div]

lemma norm_a_d (V_0 b0 inc_0 inc_f f t : ℝ) (r v : Vec3) (hf : 0 ≤ f)
    (hv : norm v ≠ 0) (hw : norm (cross r v) ≠ 0) :
    norm (a_d V_0 b0 inc_0 inc_f f t r v) = f := by
  have pyth := Real.sin_sq_add_cos_sq (beta t V_0 f b0 * np_sign (r.x * (inc_f - inc_0)))
  have h1 := unit_tangent_self v hv
  have h2 : dot (vdiv (cross r v) (norm (cross r v)))
      (vdiv (cross r v) (norm (cross r v))) = 1 := by
    rw [dot_vdiv_vdiv, ← mul_self_norm (cross r v)]
    exact div_self (mul_ne_zero hw hw)
  have h3 := unit_tangent_normal r v
  have h4 : dot (vdiv (cross r v) (norm (cross r v))) (vdiv v (norm v)) = 0 := by
    rw [dot_comm]; exact h3
  have hdot : dot (a_d V_0 b0 inc_0 inc_f f t r v) (a_d V_0 b0 inc_0 inc_f f t r v) =
      f * f := by
    simp only [a_d]
    simp only [dot_smul_left, dot_smul_right, dot_vadd_left, dot_vadd_right]
    rw [h1, h2, h3, h4]
    linear_combination (f * f) * pyth
  show Real.sqrt (dot (a_d V_0 b0 inc_0 inc_f f t r v) (a_d V_0 b0 inc_0 inc_f f t r v)) = f
  rw [hdot]
  exact Real.sqrt_mul_self hf

/-- C3: the yaw angle evaluated inside the acceleration function (before the
sign correction) is `arctan2(V_0·sin β_0, V_0·cos β_0 - f·t)`, recomputed from
the supplied elapsed time `t` at every call (the embedding is a pure function
of `t` and the captured constants). -/
theorem beta_formula (t V_0 f beta_0_ : ℝ) :
    beta t V_0 f beta_0_ =
      arctan2 (V_0 * Real.sin beta_0_) (V_0 * Real.cos beta_0_ - f * t) := rfl

/-- C5: the transfer time returned by the entry point is the returned velocity
increment divided by the thrust magnitude, the division being applied to the
very `delta_V` value that is returned. -/
theorem t_f_eq_delta_V_div_f (k a_0 a_f inc_0 inc_f f : ℝ)
    (hk : 0 < k) (h0 : 0 < a_0) (hf : 0 < a_f) (hf2 : 0 < f) :
    (edelbaum_ai k a_0 a_f inc_0 inc_f f).2.2 =
      (edelbaum_ai k a_0 a_f inc_0 inc_f f).2.1 / f := rfl

/-- Witness for C5 at the concrete input `k=1, a_0=1, a_f=1, inc_0=0, inc_f=0,
f=1`. -/
theorem t_f_eq_delta_V_div_f_witness :
    (edelbaum_ai 1 1 1 0 0 1).2.2 = (edelbaum_ai 1 1 1 0 0 1).2.1 / 1 :=
  t_f_eq_delta_V_div_f 1 1 1 0 0 1 (by norm_num) (by norm_num) (by norm_num)
    (by norm_num)

/-- C1: the velocity increment returned by the entry point is
`V_0·cos(β_0) - V_0·sin(β_0) / tan(π/2·Δi + β_0)` with `Δi = |inc_f - inc_0|`,
`V_0 = sqrt(k/a_0)` and `β_0` the initial yaw angle of the parameter
derivation. -/
theorem delta_V_formula (k a_0 a_f inc_0 inc_f f : ℝ)
    (hk : 0 < k) (h0 : 0 < a_0) (hf : 0 < a_f)
    (ht : Real.tan (Real.pi / 2 * |inc_f - inc_0| +
      beta_0 (circular_velocity k a_0) (circular_velocity k a_f) inc_0 inc_f) ≠ 0) :
    (edelbaum_ai k a_0 a_f inc_0 inc_f f).2.1 =
      Real.sqrt (k / a_0) *
          Real.cos (arctan2 (Real.sin (Real.pi / 2 * |inc_f - inc_0|))
            (Real.sqrt (k / a_0) / Real.sqrt (k / a_f) -
              Real.cos (Real.pi / 2 * |inc_f - inc_0|))) -
        Real.sqrt (k / a_0) *
            Real.sin (arctan2 (Real.sin (Real.pi / 2 * |inc_f - inc_0|))
              (Real.sqrt (k / a_0) / Real.sqrt (k / a_f) -
                Real.cos (Real.pi / 2 * |inc_f - inc_0|))) /
          Real.tan (Real.pi / 2 * |inc_f - inc_0| +
            arctan2 (Real.sin (Real.pi / 2 * |inc_f - inc_0|))
              (Real.sqrt (k / a_0) / Real.sqrt (k / a_f) -
                Real.cos (Real.pi / 2 * |inc_f - inc_0|))) := rfl

/-- Witness for C1 at `k=1, a_0=1, a_f=1, inc_0=0, inc_f=1, f=1`, where the
yaw angle is `π/4` and `tan(π/2 + π/4) = -1 ≠ 0`. -/
theorem delta_V_formula_witness :
    (edelbaum_ai 1 1 1 0 1 1).2.1 =
      Real.sqrt (1 / 1) *
          Real.cos (arctan2 (Real.sin (Real.pi / 2 * |(1:ℝ) - 0|))
            (Real.sqrt (1 / 1) / Real.sqrt (1 / 1) -
              Real.cos (Real.pi / 2 * |(1:ℝ) - 0|))) -
        Real.sqrt (1 / 1) *
            Real.sin (arctan2 (Real.sin (Real.pi / 2 * |(1:ℝ) - 0|))
              (Real.sqrt (1 / 1) / Real.sqrt (1 / 1) -
                Real.cos (Real.pi / 2 * |(1:ℝ) - 0|))) /
          Real.tan (Real.pi / 2 * |(1:ℝ) - 0| +
            arctan2 (Real.sin (Real.pi / 2 * |(1:ℝ) - 0|))
              (Real.sqrt (1 / 1) / Real.sqrt (1 / 1) -
                Real.cos (Real.pi / 2 * |(1:ℝ) - 0|))) := by
  have h1 : circular_velocity 1 1 = 1 := by
    rw [circular_velocity]; norm_num
  have habs : |(1:ℝ) - 0| = 1 := by norm_num
  have hb : beta_0 1 1 0 1 = Real.pi / 4 := by
    rw [beta_0, habs, mul_one, Real.sin_pi_div_two, Real.cos_pi_div_two]
    norm_num [arctan2, Real.arctan_one]
  refine delta_V_formula 1 1 1 0 1 1 (by norm_num) (by norm_num) (by norm_num) ?_
  have key : Real.pi / 2 * |(1:ℝ) - 0| +
      beta_0 (circular_velocity 1 1) (circular_velocity 1 1) 0 1 =
      Real.pi - Real.pi / 4 := by
    rw [h1, hb, habs]; ring
  rw [key, Real.tan_eq_sin_div_cos, Real.sin_pi_sub, Real.cos_pi_sub,
    Real.sin_pi_div_four, Real.cos_pi_div_four]
  exact div_ne_zero (by positivity) (by simp only [ne_eq, neg_eq_zero]; positivity)

/-- C2: the initial yaw angle derived by the parameter-derivation step is
`arctan2(sin(π/2·Δi), V_0/V_f - cos(π/2·Δi))` with `Δi = |inc_f - inc_0|`,
`V_0 = sqrt(k/a_0)`, `V_f = sqrt(k/a_f)`; and the two-argument `arctan2`
determines the quadrant: for a negative second argument it returns
`arctan(y/x) + π`, not `arctan(y/x)`. -/
theorem beta_0_formula :
    (∀ k a_0 a_f inc_0 inc_f : ℝ, 0 < k → 0 < a_0 → 0 < a_f →
      (compute_parameters k a_0 a_f inc_0 inc_f).2.1 =
        arctan2 (Real.sin (Real.pi / 2 * |inc_f - inc_0|))
          (Real.sqrt (k / a_0) / Real.sqrt (k / a_f) -
            Real.cos (Real.pi / 2 * |inc_f - inc_0|))) ∧
    (∀ y x : ℝ, x < 0 → 0 ≤ y → arctan2 y x = Real.arctan (y / x) + Real.pi) := by
  constructor
  · intro k a_0 a_f inc_0 inc_f hk h0 hf
    rfl
  · intro y x hx hy
    unfold arctan2
    rw [if_neg (by linarith : ¬ (0:ℝ) < x), if_neg hx.ne, if_pos hy]

/-- Witness for C2: the formula instantiated at `k=1, a_0=1, a_f=1, inc_0=0,
inc_f=1`, and the quadrant branch at `y=1, x=-1`. -/
theorem beta_0_formula_witness :
    ((compute_parameters 1 1 1 0 1).2.1 =
      arctan2 (Real.sin (Real.pi / 2 * |(1:ℝ) - 0|))
        (Real.sqrt (1 / 1) / Real.sqrt (1 / 1) -
          Real.cos (Real.pi / 2 * |(1:ℝ) - 0|))) ∧
    (arctan2 1 (-1) = Real.arctan (1 / (-1)) + Real.pi) :=
  ⟨beta_0_formula.1 1 1 1 0 1 (by norm_num) (by norm_num) (by norm_num),
   beta_0_formula.2 1 (-1) (by norm_num) (by norm_num)⟩

/-- C10: when `r_x = 0` or `inc_f = inc_0`, the sign factor is `0`, the
corrected yaw is exactly `0`, and the acceleration is exactly `f · v/|v|`
(purely tangential); `np.sign` is three-valued. -/
theorem sign_zero_tangential (V_0 b0 inc_0 inc_f f t : ℝ) (r v : Vec3)
    (h : r.x = 0 ∨ inc_f = inc_0) (hv : norm v ≠ 0) (hw : norm (cross r v) ≠ 0) :
    np_sign (r.x * (inc_f - inc_0)) = 0 ∧
    a_d V_0 b0 inc_0 inc_f f t r v = smul f (vdiv v (norm v)) ∧
    (∀ u : ℝ, np_sign u = -1 ∨ np_sign u = 0 ∨ np_sign u = 1) := by
  have hz : r.x * (inc_f - inc_0) = 0 := by
    rcases h with h | h <;> simp [h]
  have hs : np_sign (r.x * (inc_f - inc_0)) = 0 := by
    rw [hz]; simp [np_sign]
  refine ⟨hs, ?_, ?_⟩
  · unfold a_d
    rw [hs, mul_zero]
    ext <;> simp [smul, vadd, vdiv]
  · intro u
    unfold np_sign
    split_ifs <;> simp

/-- Witness for C10 at a state with `inc_f = inc_0 = 0`, `r = (1,0,0)`,
`v = (0,1,0)`. -/
theorem sign_zero_tangential_witness :
    np_sign ((Vec3.mk 1 0 0).x * ((0:ℝ) - 0)) = 0 ∧
    a_d 1 0 0 0 1 0 ⟨1, 0, 0⟩ ⟨0, 1, 0⟩ = smul 1 (vdiv ⟨0, 1, 0⟩ (norm ⟨0, 1, 0⟩)) ∧
    (∀ u : ℝ, np_sign u = -1 ∨ np_sign u = 0 ∨ np_sign u = 1) :=
  sign_zero_tangential 1 0 0 0 1 0 ⟨1, 0, 0⟩ ⟨0, 1, 0⟩ (Or.inr rfl)
    (by norm_num [norm, dot, Real.sqrt_one])
    (by norm_num [norm, dot, cross, Real.sqrt_one])

/-- C4: for every valid construction input and every non-degenerate state, the
acceleration vector returned by the constructed guidance function has Euclidean
norm equal to `f`. -/
theorem accel_norm_eq_f (k a_0 a_f inc_0 inc_f f t : ℝ) (r v : Vec3)
    (hk : 0 < k) (h0 : 0 < a_0) (hf : 0 < a_f) (hf2 : 0 < f)
    (hv : norm v ≠ 0) (hw : norm (cross r v) ≠ 0) :
    norm ((edelbaum_ai k a_0 a_f inc_0 inc_f f).1 t r v) = f := by
  have e : (edelbaum_ai k a_0 a_f inc_0 inc_f f).1 t r v =
      a_d (compute_parameters k a_0 a_f inc_0 inc_f).1
        (compute_parameters k a_0 a_f inc_0 inc_f).2.1 inc_0 inc_f f t r v := rfl
  rw [e]
  exact norm_a_d _ _ _ _ _ _ _ _ hf2.le hv hw

/-- Witness for C4 at `k=1, a_0=1, a_f=1, inc_0=0, inc_f=1, f=1`, state
`t=0, r=(1,0,0), v=(0,1,0)`. -/
theorem accel_norm_eq_f_witness :
    norm ((edelbaum_ai 1 1 1 0 1 1).1 0 ⟨1, 0, 0⟩ ⟨0, 1, 0⟩) = 1 :=
  accel_norm_eq_f 1 1 1 0 1 1 0 ⟨1, 0, 0⟩ ⟨0, 1, 0⟩ (by norm_num) (by norm_num)
    (by norm_num) (by norm_num) (by norm_num [norm, dot, Real.sqrt_one])
    (by norm_num [norm, dot, cross, Real.sqrt_one])

/-- C6 (evaluation at the failing input): at `k=1, a_0=1, a_f=1, inc_0=0,
inc_f=0` — an input with `Δi = 0`, for which the claim expects `ΔV = 0` and
`t_f = 0` — the code's formula evaluates `V_0·sin(β_0)/tan(π/2·Δi + β_0)` at
`β_0 = 0`, `tan 0 = 0`, a `0/0` expression (NaN in the IEEE execution; the
junk value `0` under this model's total division), so the returned `ΔV` is
`V_0 = 1 ≠ 0` and `t_f = 1 ≠ 0`. -/
theorem delta_V_zero_inc_eval :
    (edelbaum_ai 1 1 1 0 0 1).2.1 = 1 ∧ (edelbaum_ai 1 1 1 0 0 1).2.2 = 1 := by
  have hcv : circular_velocity 1 1 = 1 := by rw [circular_velocity]; norm_num
  have hb : beta_0 1 1 0 0 = 0 := by
    rw [beta_0]
    norm_num [arctan2]
  constructor
  · show (extra_quantities 1 1 1 0 0 1).1 = 1
    simp only [extra_quantities, compute_parameters]
    rw [hcv, hb]
    norm_num [delta_V]
  · show (extra_quantities 1 1 1 0 0 1).2 = 1
    simp only [extra_quantities, compute_parameters]
    rw [hcv, hb]
    norm_num [delta_V]

/-- C7 (counterexample): calling the acceleration function on the degenerate
state `v = (0,0,0)` does not signal any error — the source has no degeneracy
check and no error type; it divides by `norm(v) = 0` and returns an invalid
vector silently (NaN components in the IEEE execution; under this model's
total division, the zero vector, whose norm is `0 ≠ f`). -/
theorem no_singularity_check_cex :
    a_d 1 0 0 1 1 0 ⟨1, 0, 0⟩ ⟨0, 0, 0⟩ = ⟨0, 0, 0⟩ ∧
    norm (a_d 1 0 0 1 1 0 ⟨1, 0, 0⟩ ⟨0, 0, 0⟩) ≠ 1 := by
  have h : a_d 1 0 0 1 1 0 ⟨1, 0, 0⟩ ⟨0, 0, 0⟩ = ⟨0, 0, 0⟩ := by
    simp only [a_d]
    ext <;> simp [vdiv, smul, vadd, cross]
  refine ⟨h, ?_⟩
  rw [h]
  norm_num [norm, dot, Real.sqrt_zero]

/-- C7 (amended): for every construction input and every elapsed time, the
acceleration function evaluates the degenerate state `v = (0,0,0)` without
signaling anything: it always returns a plain vector (the zero vector in this
exact model, a NaN vector in IEEE), never a `NumericSingularity` error — no
such error channel exists in the code. -/
theorem no_singularity_check (V_0 b0 inc_0 inc_f f t : ℝ) (r : Vec3) :
    a_d V_0 b0 inc_0 inc_f f t r ⟨0, 0, 0⟩ = ⟨0, 0, 0⟩ := by
  simp only [a_d]
  ext <;> simp [vdiv, smul, vadd, cross]

lemma np_sign_neg (a : ℝ) : np_sign (-a) = - np_sign a := by
  unfold np_sign
  rcases lt_trichotomy a 0 with h | h | h
  · rw [if_neg (show ¬ (-a) < 0 by linarith), if_pos (show (0:ℝ) < -a by linarith),
      if_pos h]
    norm_num
  · subst h
    simp
  · rw [if_pos (show (-a) < 0 by linarith), if_neg (show ¬ a < 0 by linarith),
      if_pos h]

lemma dot_a_d_normal (V_0 b0 inc_0 inc_f f t : ℝ) (r v : Vec3)
    (hv : norm v ≠ 0) (hw : norm (cross r v) ≠ 0) :
    dot (a_d V_0 b0 inc_0 inc_f f t r v) (vdiv (cross r v) (norm (cross r v))) =
      f * Real.sin (beta t V_0 f b0 * np_sign (r.x * (inc_f - inc_0))) := by
  have h2 : dot (vdiv (cross r v) (norm (cross r v)))
      (vdiv (cross r v) (norm (cross r v))) = 1 := by
    rw [dot_vdiv_vdiv, ← mul_self_norm (cross r v)]
    exact div_self (mul_ne_zero hw hw)
  have h3 := unit_tangent_normal r v
  simp only [a_d]
  simp only [dot_smul_left, dot_vadd_left]
  rw [h3, h2]
  ring

/-- C8: for a construction with `inc_f ≠ inc_0` and two states that differ
only in the sign of the position component `r_x`, the out-of-plane
(orbit-normal) component of the returned acceleration is exactly negated,
because the corrected yaw is `β(t)·sign(r_x·(inc_f - inc_0))`. -/
theorem out_of_plane_sign_flip (k a_0 a_f inc_0 inc_f f t : ℝ) (r v : Vec3)
    (hk : 0 < k) (h0 : 0 < a_0) (hf : 0 < a_f) (hf2 : 0 < f)
    (hinc : inc_f ≠ inc_0) (hx : r.x ≠ 0) (hv : norm v ≠ 0)
    (hw1 : norm (cross r v) ≠ 0) (hw2 : norm (cross ⟨-r.x, r.y, r.z⟩ v) ≠ 0) :
    dot ((edelbaum_ai k a_0 a_f inc_0 inc_f f).1 t ⟨-r.x, r.y, r.z⟩ v)
        (vdiv (cross ⟨-r.x, r.y, r.z⟩ v) (norm (cross ⟨-r.x, r.y, r.z⟩ v))) =
      - dot ((edelbaum_ai k a_0 a_f inc_0 inc_f f).1 t r v)
          (vdiv (cross r v) (norm (cross r v))) := by
  have e1 : (edelbaum_ai k a_0 a_f inc_0 inc_f f).1 t ⟨-r.x, r.y, r.z⟩ v =
      a_d (compute_parameters k a_0 a_f inc_0 inc_f).1
        (compute_parameters k a_0 a_f inc_0 inc_f).2.1 inc_0 inc_f f t
        ⟨-r.x, r.y, r.z⟩ v := rfl
  have e2 : (edelbaum_ai k a_0 a_f inc_0 inc_f f).1 t r v =
      a_d (compute_parameters k a_0 a_f inc_0 inc_f).1
        (compute_parameters k a_0 a_f inc_0 inc_f).2.1 inc_0 inc_f f t r v := rfl
  rw [e1, e2, dot_a_d_normal _ _ _ _ _ _ _ _ hv hw2,
    dot_a_d_normal _ _ _ _ _ _ _ _ hv hw1]
  have hproj : (Vec3.mk (-r.x) r.y r.z).x = -r.x := rfl
  rw [hproj, neg_mul, np_sign_neg, mul_neg, Real.sin_neg, mul_neg]

/-- Witness for C8 at `k=1, a_0=1, a_f=1, inc_0=0, inc_f=1, f=1`, state
`t=0, r=(1,0,0)` versus `r=(-1,0,0)`, `v=(0,1,0)`. -/
theorem out_of_plane_sign_flip_witness :
    dot ((edelbaum_ai 1 1 1 0 1 1).1 0 ⟨-1, 0, 0⟩ ⟨0, 1, 0⟩)
        (vdiv (cross ⟨-1, 0, 0⟩ ⟨0, 1, 0⟩) (norm (cross ⟨-1, 0, 0⟩ ⟨0, 1, 0⟩))) =
      - dot ((edelbaum_ai 1 1 1 0 1 1).1 0 ⟨1, 0, 0⟩ ⟨0, 1, 0⟩)
          (vdiv (cross ⟨1, 0, 0⟩ ⟨0, 1, 0⟩) (norm (cross ⟨1, 0, 0⟩ ⟨0, 1, 0⟩))) :=
  out_of_plane_sign_flip 1 1 1 0 1 1 0 ⟨1, 0, 0⟩ ⟨0, 1, 0⟩ (by norm_num)
    (by norm_num) (by norm_num) (by norm_num) (by norm_num)
    (show (1:ℝ) ≠ 0 by norm_num)
    (by norm_num [norm, dot, Real.sqrt_one])
    (by norm_num [norm, dot, cross, Real.sqrt_one])
    (by norm_num [norm, dot, cross, Real.sqrt_one])

lemma sq_add_sq_pos {x y : ℝ} (h : x ≠ 0 ∨ y ≠ 0) : 0 < x ^ 2 + y ^ 2 := by
  rcases h with h | h
  · have h1 := sq_nonneg y
    have h2 : 0 < x ^ 2 := (sq_nonneg x).lt_of_ne (Ne.symm (pow_ne_zero 2 h))
    linarith
  · have h1 := sq_nonneg x
    have h2 : 0 < y ^ 2 := (sq_nonneg y).lt_of_ne (Ne.symm (pow_ne_zero 2 h))
    linarith

lemma sqrt_one_add_div_sq (x y : ℝ) (hx : x ≠ 0) :
    Real.sqrt (1 + (y / x) ^ 2) = Real.sqrt (x ^ 2 + y ^ 2) / |x| := by
  have h1 : 1 + (y / x) ^ 2 = (x ^ 2 + y ^ 2) / x ^ 2 := by
    field_simp
  rw [h1, Real.sqrt_div (by positivity) (x ^ 2), Real.sqrt_sq_eq_abs]

lemma cos_arctan2 (y x : ℝ) (h : x ≠ 0 ∨ y ≠ 0) :
    Real.cos (arctan2 y x) = x / Real.sqrt (x ^ 2 + y ^ 2) := by
  unfold arctan2
  rcases lt_trichotomy x 0 with hx | hx | hx
  · have hxne : x ≠ 0 := hx.ne
    have key := sqrt_one_add_div_sq x y hxne
    rw [abs_of_neg hx] at key
    have hS : 0 < Real.sqrt (x ^ 2 + y ^ 2) :=
      Real.sqrt_pos.mpr (sq_add_sq_pos (Or.inl hxne))
    rw [if_neg (show ¬ (0:ℝ) < x by linarith), if_neg hxne]
    split_ifs with hy
    · rw [Real.cos_add, Real.cos_pi, Real.sin_pi, Real.cos_arctan, key]
      rw [mul_zero, sub_zero, one_div_div]
      ring
    · rw [Real.cos_sub, Real.cos_pi, Real.sin_pi, Real.cos_arctan, key]
      rw [mul_zero, add_zero, one_div_div]
      ring
  · subst hx
    rcases h with h | h
    · exact absurd rfl h
    · rw [if_neg (lt_irrefl 0), if_pos rfl]
      split_ifs with h1 h2
      · simp
      · simp
      · exact absurd (le_antisymm (not_lt.mp h1) (not_lt.mp h2)) h
  · have hxne : x ≠ 0 := hx.ne'
    have key := sqrt_one_add_div_sq x y hxne
    rw [abs_of_pos hx] at key
    rw [if_pos hx, Real.cos_arctan, key, one_div_div]

lemma sin_arctan2 (y x : ℝ) (h : x ≠ 0 ∨ y ≠ 0) :
    Real.sin (arctan2 y x) = y / Real.sqrt (x ^ 2 + y ^ 2) := by
  unfold arctan2
  rcases lt_trichotomy x 0 with hx | hx | hx
  · have hxne : x ≠ 0 := hx.ne
    have key := sqrt_one_add_div_sq x y hxne
    rw [abs_of_neg hx] at key
    have hS : 0 < Real.sqrt (x ^ 2 + y ^ 2) :=
      Real.sqrt_pos.mpr (sq_add_sq_pos (Or.inl hxne))
    rw [if_neg (show ¬ (0:ℝ) < x by linarith), if_neg hxne]
    split_ifs with hy
    · rw [Real.sin_add, Real.cos_pi, Real.sin_pi, Real.sin_arctan, key]
      rw [mul_zero, add_zero]
      field_simp
      ring
    · rw [Real.sin_sub, Real.cos_pi, Real.sin_pi, Real.sin_arctan, key]
      rw [mul_zero, sub_zero]
      field_simp
      ring
  · subst hx
    rcases h with h | h
    · exact absurd rfl h
    · rw [if_neg (lt_irrefl 0), if_pos rfl]
      have hy2 : Real.sqrt (0 ^ 2 + y ^ 2) = |y| := by
        rw [show (0:ℝ) ^ 2 + y ^ 2 = y ^ 2 by ring, Real.sqrt_sq_eq_abs]
      split_ifs with h1 h2
      · rw [Real.sin_pi_div_two, hy2, abs_of_pos h1, div_self h]
      · rw [Real.sin_neg, Real.sin_pi_div_two, hy2, abs_of_neg h2, div_neg,
          div_self h]
      · exact absurd (le_antisymm (not_lt.mp h1) (not_lt.mp h2)) h
  · have hxne : x ≠ 0 := hx.ne'
    have key := sqrt_one_add_div_sq x y hxne
    rw [abs_of_pos hx] at key
    have hS : 0 < Real.sqrt (x ^ 2 + y ^ 2) :=
      Real.sqrt_pos.mpr (sq_add_sq_pos (Or.inl hxne))
    rw [if_pos hx, Real.sin_arctan, key]
    field_simp

lemma closed_form_core (V_0 V_f x c s R : ℝ) (hV : V_0 = x * V_f)
    (hR : R ^ 2 = (x - c) ^ 2 + s ^ 2) (hp : s ^ 2 + c ^ 2 = 1) (hRne : R ≠ 0)
    (hxne : x ≠ 0) (hsne : s ≠ 0) (hc1 : c * x - 1 ≠ 0) :
    V_0 * ((x - c) / R) - V_0 * (s / R) / (s * x / (c * x - 1)) = V_f * R := by
  subst hV
  have hB : (x * V_f) * (s / R) / (s * x / (c * x - 1)) =
      (x * V_f) * (c * x - 1) / (R * x) := by
    rw [div_div_eq_mul_div]
    rw [show x * V_f * (s / R) * (c * x - 1) = s * (x * V_f * (c * x - 1)) / R from by
      ring]
    rw [show s * (x * V_f * (c * x - 1)) / R / (s * x) =
        s * (x * V_f * (c * x - 1)) / (s * (R * x)) from by
      rw [div_div]; ring_nf]
    rw [mul_div_mul_left _ _ hsne]
  rw [hB, ← mul_div_assoc, div_sub_div _ _ hRne (mul_ne_zero hRne hxne),
    div_eq_iff (mul_ne_zero hRne (mul_ne_zero hRne hxne))]
  linear_combination (-(V_f * x * R)) * hR + (-(V_f * x * R)) * hp

lemma closed_form_core_sing (V_0 V_f x c s R : ℝ) (hV : V_0 = x * V_f)
    (hR : R ^ 2 = (x - c) ^ 2 + s ^ 2) (hp : s ^ 2 + c ^ 2 = 1) (hRne : R ≠ 0)
    (hc1 : c * x - 1 = 0) :
    V_0 * ((x - c) / R) = V_f * R := by
  subst hV
  rw [← mul_div_assoc, div_eq_iff hRne]
  linear_combination (-V_f) * hR + V_f * hc1 + (-V_f) * hp

lemma delta_V_closed_form (V_0 V_f ε : ℝ) (h0 : 0 < V_0) (hfv : 0 < V_f)
    (hs : Real.sin ε ≠ 0) :
    V_0 * Real.cos (arctan2 (Real.sin ε) (V_0 / V_f - Real.cos ε)) -
      V_0 * Real.sin (arctan2 (Real.sin ε) (V_0 / V_f - Real.cos ε)) /
        Real.tan (ε + arctan2 (Real.sin ε) (V_0 / V_f - Real.cos ε)) =
    Real.sqrt (V_0 ^ 2 + V_f ^ 2 - 2 * V_0 * V_f * Real.cos ε) := by
  have hVf : V_f ≠ 0 := hfv.ne'
  have hpyth := Real.sin_sq_add_cos_sq ε
  have hQpos : 0 < (V_0 / V_f - Real.cos ε) ^ 2 + Real.sin ε ^ 2 :=
    sq_add_sq_pos (Or.inr hs)
  have hRpos : 0 < Real.sqrt ((V_0 / V_f - Real.cos ε) ^ 2 + Real.sin ε ^ 2) :=
    Real.sqrt_pos.mpr hQpos
  have hR2 := Real.sq_sqrt hQpos.le
  have hcosb := cos_arctan2 (Real.sin ε) (V_0 / V_f - Real.cos ε) (Or.inr hs)
  have hsinb := sin_arctan2 (Real.sin ε) (V_0 / V_f - Real.cos ε) (Or.inr hs)
  set R := Real.sqrt ((V_0 / V_f - Real.cos ε) ^ 2 + Real.sin ε ^ 2) with hRdef
  have hsin_add : Real.sin (ε + arctan2 (Real.sin ε) (V_0 / V_f - Real.cos ε)) =
      Real.sin ε * (V_0 / V_f) / R := by
    rw [Real.sin_add, hcosb, hsinb]
    field_simp
    ring
  have hcos_add : Real.cos (ε + arctan2 (Real.sin ε) (V_0 / V_f - Real.cos ε)) =
      (Real.cos ε * (V_0 / V_f) - 1) / R := by
    rw [Real.cos_add, hcosb, hsinb]
    rw [show Real.cos ε * ((V_0 / V_f - Real.cos ε) / R) - Real.sin ε * (Real.sin ε / R) =
        (Real.cos ε * (V_0 / V_f - Real.cos ε) - Real.sin ε * Real.sin ε) / R from by
      ring]
    congr 1
    linear_combination (-1 : ℝ) * hpyth
  have e1 : V_0 ^ 2 + V_f ^ 2 - 2 * V_0 * V_f * Real.cos ε =
      V_f ^ 2 * ((V_0 / V_f - Real.cos ε) ^ 2 + Real.sin ε ^ 2) := by
    field_simp
    linear_combination (-(V_f ^ 2)) * hpyth
  have hRHS : Real.sqrt (V_0 ^ 2 + V_f ^ 2 - 2 * V_0 * V_f * Real.cos ε) =
      V_f * R := by
    rw [e1, Real.sqrt_mul (sq_nonneg V_f) _, Real.sqrt_sq hfv.le, ← hRdef]
  rcases eq_or_ne (Real.cos ε * (V_0 / V_f) - 1) 0 with hc1 | hc1
  · have htan0 : Real.tan (ε + arctan2 (Real.sin ε) (V_0 / V_f - Real.cos ε)) = 0 := by
      rw [Real.tan_eq_sin_div_cos, hcos_add, hc1, zero_div, div_zero]
    rw [htan0, div_zero, sub_zero, hcosb, hRHS]
    exact closed_form_core_sing V_0 V_f (V_0 / V_f) (Real.cos ε) (Real.sin ε) R
      (by field_simp) hR2 hpyth hRpos.ne' hc1
  · have htan : Real.tan (ε + arctan2 (Real.sin ε) (V_0 / V_f - Real.cos ε)) =
        Real.sin ε * (V_0 / V_f) / (Real.cos ε * (V_0 / V_f) - 1) := by
      rw [Real.tan_eq_sin_div_cos, hsin_add, hcos_add]
      rw [div_div_div_cancel_right₀ hRpos.ne']
    rw [htan, hcosb, hsinb, hRHS]
    have hx0 : V_0 / V_f ≠ 0 := div_ne_zero h0.ne' hVf
    exact closed_form_core V_0 V_f (V_0 / V_f) (Real.cos ε) (Real.sin ε) R
      (by field_simp) hR2 hpyth hRpos.ne' hx0 hs hc1
lemma np_sign_cases (a : ℝ) (ha : a ≠ 0) : np_sign a = 1 ∨ np_sign a = -1 := by
  rcases lt_trichotomy a 0 with h | h | h
  · right
    rw [np_sign, if_pos h]
  · exact absurd h ha
  · left
    rw [np_sign, if_neg (by linarith : ¬ a < 0), if_pos h]

lemma sin_beta_factor (V_0 V_f f t ε : ℝ) (h0 : 0 < V_0) (hfv : 0 < V_f)
    (hs : Real.sin ε ≠ 0) :
    ∃ p : ℝ, 0 < p ∧
      Real.sin (beta t V_0 f (arctan2 (Real.sin ε) (V_0 / V_f - Real.cos ε))) =
        Real.sin ε * p := by
  set b0 := arctan2 (Real.sin ε) (V_0 / V_f - Real.cos ε) with hb0
  have hQpos : 0 < (V_0 / V_f - Real.cos ε) ^ 2 + Real.sin ε ^ 2 :=
    sq_add_sq_pos (Or.inr hs)
  set R := Real.sqrt ((V_0 / V_f - Real.cos ε) ^ 2 + Real.sin ε ^ 2) with hR
  have hRpos : 0 < R := Real.sqrt_pos.mpr hQpos
  have hsinb : Real.sin b0 = Real.sin ε / R := sin_arctan2 _ _ (Or.inr hs)
  have hy : V_0 * Real.sin b0 ≠ 0 := by
    rw [hsinb]
    exact mul_ne_zero h0.ne' (div_ne_zero hs hRpos.ne')
  set D := Real.sqrt ((V_0 * Real.cos b0 - f * t) ^ 2 + (V_0 * Real.sin b0) ^ 2) with hD
  have hDpos : 0 < D := Real.sqrt_pos.mpr (sq_add_sq_pos (Or.inr hy))
  have hsinβ : Real.sin (beta t V_0 f b0) = (V_0 * Real.sin b0) / D :=
    sin_arctan2 _ _ (Or.inr hy)
  refine ⟨V_0 / (R * D), div_pos h0 (mul_pos hRpos hDpos), ?_⟩
  rw [hsinβ, hsinb]
  ring

/-- C9 (counterexample): at `k=1, a_0=1, a_f=4, inc_0=inc_f=0`, swapping
`(a_0, inc_0)` with `(a_f, inc_f)` does not preserve the returned `ΔV`: the
`Δi = 0` singularity makes the forward value `1` and the swapped value `-1/2`
(in IEEE arithmetic both are NaN — also not equal). -/
theorem delta_V_swap_cex :
    (edelbaum_ai 1 4 1 0 0 1).2.1 ≠ (edelbaum_ai 1 1 4 0 0 1).2.1 := by
  have hcv14 : circular_velocity 1 4 = 1 / 2 := by
    rw [circular_velocity, show (1:ℝ) / 4 = (1 / 2) ^ 2 by norm_num,
      Real.sqrt_sq (by norm_num)]
  have hcv11 : circular_velocity 1 1 = 1 := by
    rw [circular_velocity]; norm_num
  have hbA : beta_0 (1 / 2) 1 0 0 = Real.pi := by
    rw [beta_0]
    norm_num [arctan2, Real.arctan_zero]
  have hbB : beta_0 1 (1 / 2) 0 0 = 0 := by
    rw [beta_0]
    norm_num [arctan2, Real.arctan_zero]
  have hA : (edelbaum_ai 1 4 1 0 0 1).2.1 = -(1 / 2) := by
    show (extra_quantities 1 4 1 0 0 1).1 = -(1 / 2)
    simp only [extra_quantities, compute_parameters]
    rw [hcv14, hcv11, hbA, delta_V]
    norm_num [Real.cos_pi, Real.sin_pi]
  have hB : (edelbaum_ai 1 1 4 0 0 1).2.1 = 1 := by
    show (extra_quantities 1 1 4 0 0 1).1 = 1
    simp only [extra_quantities, compute_parameters]
    rw [hcv11, hcv14, hbB, delta_V]
    norm_num
  rw [hA, hB]
  norm_num

/-- C9 (amended): whenever the inclination change is not a whole multiple of
two radians (so that `sin(π/2·Δi) ≠ 0`, excluding the `Δi = 0` singularity of
the `ΔV` formula), swapping `(a_0, inc_0)` with `(a_f, inc_f)` yields the same
`ΔV`, and at any state with `r_x·(inc_f - inc_0) ≠ 0` the out-of-plane
components of the forward and reversed accelerations have opposite signs. -/
theorem delta_V_swap_symm (k a_0 a_f inc_0 inc_f f t : ℝ) (r v : Vec3)
    (hk : 0 < k) (h0 : 0 < a_0) (hf : 0 < a_f) (hf2 : 0 < f)
    (hs : Real.sin (Real.pi / 2 * |inc_f - inc_0|) ≠ 0)
    (hx : r.x * (inc_f - inc_0) ≠ 0)
    (hv : norm v ≠ 0) (hw : norm (cross r v) ≠ 0) :
    (edelbaum_ai k a_f a_0 inc_f inc_0 f).2.1 =
      (edelbaum_ai k a_0 a_f inc_0 inc_f f).2.1 ∧
    dot ((edelbaum_ai k a_f a_0 inc_f inc_0 f).1 t r v)
        (vdiv (cross r v) (norm (cross r v))) *
      dot ((edelbaum_ai k a_0 a_f inc_0 inc_f f).1 t r v)
        (vdiv (cross r v) (norm (cross r v))) < 0 := by
  have hVa : 0 < circular_velocity k a_0 := Real.sqrt_pos.mpr (div_pos hk h0)
  have hVb : 0 < circular_velocity k a_f := Real.sqrt_pos.mpr (div_pos hk hf)
  have habs : |inc_0 - inc_f| = |inc_f - inc_0| := abs_sub_comm _ _
  have hs' : Real.sin (Real.pi / 2 * |inc_0 - inc_f|) ≠ 0 := by
    rw [habs]; exact hs
  constructor
  · have e1 : (edelbaum_ai k a_f a_0 inc_f inc_0 f).2.1 =
        delta_V (circular_velocity k a_f)
          (beta_0 (circular_velocity k a_f) (circular_velocity k a_0) inc_f inc_0)
          inc_f inc_0 := rfl
    have e2 : (edelbaum_ai k a_0 a_f inc_0 inc_f f).2.1 =
        delta_V (circular_velocity k a_0)
          (beta_0 (circular_velocity k a_0) (circular_velocity k a_f) inc_0 inc_f)
          inc_0 inc_f := rfl
    have h1 : (edelbaum_ai k a_f a_0 inc_f inc_0 f).2.1 =
        Real.sqrt (circular_velocity k a_f ^ 2 + circular_velocity k a_0 ^ 2 -
          2 * circular_velocity k a_f * circular_velocity k a_0 *
            Real.cos (Real.pi / 2 * |inc_0 - inc_f|)) := by
      rw [e1]
      simp only [delta_V, beta_0]
      exact delta_V_closed_form _ _ _ hVb hVa hs'
    have h2 : (edelbaum_ai k a_0 a_f inc_0 inc_f f).2.1 =
        Real.sqrt (circular_velocity k a_0 ^ 2 + circular_velocity k a_f ^ 2 -
          2 * circular_velocity k a_0 * circular_velocity k a_f *
            Real.cos (Real.pi / 2 * |inc_f - inc_0|)) := by
      rw [e2]
      simp only [delta_V, beta_0]
      exact delta_V_closed_form _ _ _ hVa hVb hs
    rw [h1, h2, habs]
    congr 1
    ring
  · have e1 : (edelbaum_ai k a_f a_0 inc_f inc_0 f).1 t r v =
        a_d (circular_velocity k a_f)
          (beta_0 (circular_velocity k a_f) (circular_velocity k a_0) inc_f inc_0)
          inc_f inc_0 f t r v := rfl
    have e2 : (edelbaum_ai k a_0 a_f inc_0 inc_f f).1 t r v =
        a_d (circular_velocity k a_0)
          (beta_0 (circular_velocity k a_0) (circular_velocity k a_f) inc_0 inc_f)
          inc_0 inc_f f t r v := rfl
    rw [e1, e2, dot_a_d_normal _ _ _ _ _ _ _ _ hv hw,
      dot_a_d_normal _ _ _ _ _ _ _ _ hv hw]
    obtain ⟨p2, hp2, hsin2⟩ := sin_beta_factor (circular_velocity k a_f)
      (circular_velocity k a_0) f t (Real.pi / 2 * |inc_0 - inc_f|) hVb hVa hs'
    obtain ⟨p1, hp1, hsin1⟩ := sin_beta_factor (circular_velocity k a_0)
      (circular_velocity k a_f) f t (Real.pi / 2 * |inc_f - inc_0|) hVa hVb hs
    have hb2 : beta_0 (circular_velocity k a_f) (circular_velocity k a_0)
        inc_f inc_0 =
        arctan2 (Real.sin (Real.pi / 2 * |inc_0 - inc_f|))
          (circular_velocity k a_f / circular_velocity k a_0 -
            Real.cos (Real.pi / 2 * |inc_0 - inc_f|)) := rfl
    have hb1 : beta_0 (circular_velocity k a_0) (circular_velocity k a_f)
        inc_0 inc_f =
        arctan2 (Real.sin (Real.pi / 2 * |inc_f - inc_0|))
          (circular_velocity k a_0 / circular_velocity k a_f -
            Real.cos (Real.pi / 2 * |inc_f - inc_0|)) := rfl
    have hσ2 : np_sign (r.x * (inc_0 - inc_f)) = - np_sign (r.x * (inc_f - inc_0)) := by
      rw [show r.x * (inc_0 - inc_f) = -(r.x * (inc_f - inc_0)) from by ring,
        np_sign_neg]
    have hq : 0 < Real.sin (Real.pi / 2 * |inc_f - inc_0|) ^ 2 :=
      (sq_nonneg _).lt_of_ne (Ne.symm (pow_ne_zero 2 hs))
    have hmain : 0 < p2 * p1 := mul_pos hp2 hp1
    rw [hσ2]
    rcases np_sign_cases _ hx with hσ | hσ
    · rw [hσ, mul_neg, mul_one, Real.sin_neg, mul_one]
      rw [hb2, hb1, hsin2, hsin1, habs]
      nlinarith [mul_pos (mul_pos hf2 hf2) (mul_pos hq hmain)]
    · rw [hσ, neg_neg, mul_one, mul_neg_one, Real.sin_neg]
      rw [hb2, hb1, hsin2, hsin1, habs]
      nlinarith [mul_pos (mul_pos hf2 hf2) (mul_pos hq hmain)]

/-- Witness for the amended C9 at `k=1, a_0=1, a_f=1, inc_0=0, inc_f=1, f=1`,
state `t=0, r=(1,0,0), v=(0,1,0)`. -/
theorem delta_V_swap_symm_witness :
    ((edelbaum_ai 1 1 1 1 0 1).2.1 = (edelbaum_ai 1 1 1 0 1 1).2.1) ∧
    dot ((edelbaum_ai 1 1 1 1 0 1).1 0 ⟨1, 0, 0⟩ ⟨0, 1, 0⟩)
        (vdiv (cross ⟨1, 0, 0⟩ ⟨0, 1, 0⟩) (norm (cross ⟨1, 0, 0⟩ ⟨0, 1, 0⟩))) *
      dot ((edelbaum_ai 1 1 1 0 1 1).1 0 ⟨1, 0, 0⟩ ⟨0, 1, 0⟩)
        (vdiv (cross ⟨1, 0, 0⟩ ⟨0, 1, 0⟩) (norm (cross ⟨1, 0, 0⟩ ⟨0, 1, 0⟩))) < 0 :=
  delta_V_swap_symm 1 1 1 0 1 1 0 ⟨1, 0, 0⟩ ⟨0, 1, 0⟩ (by norm_num) (by norm_num)
    (by norm_num) (by norm_num)
    (by rw [show |(1:ℝ) - 0| = 1 by norm_num, mul_one, Real.sin_pi_div_two]
        norm_num)
    (show (1:ℝ) * (1 - 0) ≠ 0 by norm_num)
    (by norm_num [norm, dot, Real.sqrt_one])
    (by norm_num [norm, dot, cross, Real.sqrt_one])

end Edelbaum
